import Mathlib

/-!
Verification development for the memory-mcp-server repository.

The definitions below are a shallow embedding of the Python sources
`src/app/crud.py`, `src/app/mcp_server.py`, `src/app/models.py` and
`src/app/database.py`:

* the `commands` table is a list of `CmdRow` values in insertion order,
  with the SQLAlchemy autoincrement primary key modelled as `store.length + 1`
  and the server-assigned UTC timestamp modelled as a `Nat` parameter;
* Python strings are Lean `String`s; `str.lower`/`str.upper`/`str.capitalize`,
  the substring operator `in`, `str.join`, `str.split` and `str.replace` are
  reimplemented character-by-character below;
* Python dicts used as counters (insertion-ordered, `d.get(k, 0)` /
  `d[k] = v`) are association lists `List (String × Nat)`;
* `sorted(..., key=lambda x: x[1], reverse=True)` (a stable descending sort)
  is modelled by insertion sort `sortDesc`, which places each element after
  all earlier elements with a greater-or-equal key;
* dynamic values reaching the service facade are modelled by `PyVal`
  (strings, ints, bools, None, lists) with Python truthiness;
* code that can raise returns `Except String` (the string names the
  Python exception class).
-/

set_option maxRecDepth 20000

namespace MemoryMcp

/-- Checks whether the first character list is an initial segment of the
second one; this is the matcher behind the substring and split operations. -/
def matchesAt : List Char → List Char → Bool
  | [], _ => true
  | _ :: _, [] => false
  | a :: as, b :: bs => (a == b) && matchesAt as bs

/-- Contiguous-sublist test at the character level, scanning every start
position; `subAt n h` decides whether `n` occurs inside `h`. -/
def subAt : List Char → List Char → Bool
  | n, [] => n.isEmpty
  | n, c :: t => matchesAt n (c :: t) || subAt n t

/-- Python substring operator `needle in hay` on strings. -/
def substrB (needle hay : String) : Bool :=
  subAt needle.toList hay.toList

/-- Python `str.split` with a single-character separator: split at every
occurrence; the empty input yields one empty piece (Python returns `[""]`). -/
def splitChar (sep : Char) : List Char → List (List Char)
  | [] => [[]]
  | c :: rest =>
    if c = sep then [] :: splitChar sep rest
    else
      match splitChar sep rest with
      | [] => [[c]]
      | s :: ss => (c :: s) :: ss

/-- Python `sep.join(parts)` at the character-list level. -/
def joinL (sep : List Char) : List (List Char) → List Char
  | [] => []
  | [x] => x
  | x :: y :: rest => x ++ sep ++ joinL sep (y :: rest)

/-- Python `str.split` with a multi-character separator (the code splits the
style summary on `", "`). -/
def splitSeq : List Char → List Char → List (List Char)
  | _, [] => [[]]
  | sep, c :: rest =>
    if matchesAt sep (c :: rest) then
      [] :: splitSeq sep (List.drop (sep.length - 1) rest)
    else
      match splitSeq sep rest with
      | [] => [[c]]
      | s :: ss => (c :: s) :: ss
termination_by _ l => l.length
decreasing_by
  all_goals simp [List.length_drop]
  all_goals omega

/-- Rebuilds a string from its character list. -/
def ofList (l : List Char) : String := String.mk l

/-- Python `str.lower()` (character-wise, which is exact for the ASCII
keywords and markers the code works with). -/
def pyLower (s : String) : String := ofList (s.toList.map Char.toLower)

/-- Python `str.upper()` (character-wise). -/
def pyUpper (s : String) : String := ofList (s.toList.map Char.toUpper)

/-- Python `sep.join(parts)` on strings. -/
def pyJoin (sep : String) (parts : List String) : String :=
  ofList (joinL sep.toList (parts.map String.toList))

/-- Python `s.split(sep)` on strings with a multi-character separator. -/
def pySplitSeq (sep s : String) : List String :=
  (splitSeq sep.toList s.toList).map ofList

/-- Tag column encoding from `create_command` in crud.py:
`",".join(tags) if tags else ""`. -/
def storeTags (tags : List String) : String :=
  if tags.isEmpty then "" else pyJoin "," tags

/-- Tag decoding shared by every read path in crud.py
(`_serialize_commands`, `compute_stats`, `analyze_preferences`,
`get_recent_context`): `r.tags.split(",") if r.tags else []`. -/
def readTags (s : String) : List String :=
  if s = "" then [] else (splitChar ',' s.toList).map ofList

theorem ofList_toList (s : String) : ofList s.toList = s := by
  cases s
  rfl

theorem toList_ofList (l : List Char) : (ofList l).toList = l := rfl

theorem empty_eq_ofList_nil : ("" : String) = ofList [] := rfl

theorem ofList_eq_empty_iff (l : List Char) : ofList l = "" ↔ l = [] := by
  constructor
  · intro h
    have h2 : (ofList l).toList = ("" : String).toList := by rw [h]
    simpa [toList_ofList] using h2
  · intro h
    rw [h]
    rfl

theorem toList_eq_nil_iff (s : String) : s.toList = [] ↔ s = "" := by
  constructor
  · intro h
    have h2 : ofList s.toList = ofList [] := by rw [h]
    rwa [ofList_toList, ← empty_eq_ofList_nil] at h2
  · intro h
    rw [h]
    rfl

theorem splitChar_no_sep (sep : Char) (t : List Char) (h : sep ∉ t) :
    splitChar sep t = [t] := by
  induction t with
  | nil => rfl
  | cons c rest ih =>
    have hc : ¬ c = sep := by
      intro e
      exact h (by rw [e]; exact List.mem_cons_self _ _)
    have hr : sep ∉ rest := fun m => h (List.mem_cons_of_mem _ m)
    simp [splitChar, hc, ih hr]

theorem splitChar_append (sep : Char) (t rest : List Char) (h : sep ∉ t) :
    splitChar sep (t ++ sep :: rest) = t :: splitChar sep rest := by
  induction t with
  | nil => simp [splitChar]
  | cons c t2 ih =>
    have hc : ¬ c = sep := by
      intro e
      exact h (by rw [e]; exact List.mem_cons_self _ _)
    have ht : sep ∉ t2 := fun m => h (List.mem_cons_of_mem _ m)
    have hrec := ih ht
    simp only [List.cons_append, splitChar, hc, if_false]
    simp only [List.append_eq]
    rw [hrec]

theorem splitChar_joinL (sep : Char) (parts : List (List Char)) (hne : parts ≠ [])
    (hfree : ∀ p ∈ parts, sep ∉ p) :
    splitChar sep (joinL [sep] parts) = parts := by
  induction parts with
  | nil => exact absurd rfl hne
  | cons x rest ih =>
    cases rest with
    | nil =>
      simpa [joinL] using splitChar_no_sep sep x (hfree x (by simp))
    | cons y rest2 =>
      have hx : sep ∉ x := hfree x (by simp)
      have hjoin : joinL [sep] (x :: y :: rest2) = x ++ sep :: joinL [sep] (y :: rest2) := by
        simp [joinL]
      rw [hjoin, splitChar_append sep x _ hx,
        ih (by simp) (fun p hp => hfree p (List.mem_cons_of_mem _ hp))]

theorem joinL_cons_cons_ne_nil (sep x y : List Char) (rest : List (List Char))
    (hsep : sep ≠ []) : joinL sep (x :: y :: rest) ≠ [] := by
  simp only [joinL]
  intro h
  rcases List.append_eq_nil.mp h with ⟨h1, h2⟩
  rcases List.append_eq_nil.mp h1 with ⟨_, h3⟩
  exact hsep h3

/-- C1: storing a tag sequence (join with ",") and reading it back (split on
",") reproduces the sequence whenever no tag contains a comma — except for
the singleton sequence consisting of one empty tag, which is excluded here
because it is stored as the empty string and read back as the empty sequence.
The empty sequence round-trips to the empty sequence. -/
theorem c1_tag_round_trip (ts : List String) (hfree : ∀ t ∈ ts, ',' ∉ t.toList)
    (hne : ts ≠ [""]) : readTags (storeTags ts) = ts := by
  cases ts with
  | nil => rfl
  | cons t rest =>
    have hstore : storeTags (t :: rest) = pyJoin "," (t :: rest) := by
      simp [storeTags]
    set J := joinL [','] ((t :: rest).map String.toList) with hJ
    have hpy : pyJoin "," (t :: rest) = ofList J := rfl
    have hJne : J ≠ [] := by
      cases rest with
      | nil =>
        have ht : t ≠ "" := by
          intro e
          exact hne (by rw [e])
        have : J = t.toList := rfl
        rw [this]
        intro e
        exact ht ((toList_eq_nil_iff t).mp e)
      | cons y rest2 =>
        exact joinL_cons_cons_ne_nil [','] t.toList y.toList _ (by simp)
    have hofne : ofList J ≠ "" := fun e => hJne ((ofList_eq_empty_iff J).mp e)
    rw [hstore, hpy]
    unfold readTags
    rw [if_neg hofne, toList_ofList, hJ,
      splitChar_joinL ',' ((t :: rest).map String.toList) (by simp)
        (by
          intro p hp
          rcases List.mem_map.mp hp with ⟨s, hs, hps⟩
          rw [← hps]
          exact hfree s hs)]
    rw [List.map_map]
    have : ∀ s ∈ (t :: rest), (ofList ∘ String.toList) s = s := by
      intro s _
      cases s
      rfl
    simpa using List.map_congr_left this

/-- C1 counterexample: the singleton sequence containing one empty tag (which
contains no comma) is stored as "" and read back as the empty sequence, not
as itself. -/
theorem c1_counterexample :
    readTags (storeTags [""]) = ([] : List String) ∧
    readTags (storeTags [""]) ≠ [""] ∧ ',' ∉ ("" : String).toList := by
  refine ⟨rfl, ?_, by decide⟩
  intro h
  exact absurd (h ▸ rfl) (by decide : (([] : List String) = [""]) → False)

/-- C1 witness: a concrete comma-free tag list round-trips unchanged. -/
theorem c1_witness : readTags (storeTags ["a", "b"]) = ["a", "b"] :=
  c1_tag_round_trip ["a", "b"] (by decide) (by decide)

/-- One row of the `commands` table (models.py): autoincrement integer
primary key, required text, comma-separated tag string, server-assigned
UTC timestamp (modelled as a `Nat`). The timestamp column is declared with
`index=True`, creating the index `ix_commands_timestamp`. -/
structure CmdRow where
  id : Nat
  command_text : String
  tags : String
  timestamp : Nat
deriving DecidableEq, Repr

/-- Models `crud.create_command`: inserts one row whose tag column is the
comma-join of the tag list; id is the next autoincrement value and the
timestamp is the server clock at insert time. -/
def create_command (now : Nat) (command_text : String) (tags : List String)
    (store : List CmdRow) : List CmdRow :=
  store ++ [{ id := store.length + 1, command_text := command_text,
              tags := storeTags tags, timestamp := now }]

/-- Serialized row shape produced by `crud._serialize_commands`; the ISO-8601
rendering of the timestamp is modelled by the raw timestamp value (the
rendering is injective and order-preserving, so nothing is lost). -/
structure SerializedCmd where
  command_text : String
  tags : List String
  timestamp : Nat
deriving DecidableEq, Repr

/-- Models `crud._serialize_commands`. -/
def _serialize_commands (rows : List CmdRow) : List SerializedCmd :=
  rows.map fun r =>
    { command_text := r.command_text, tags := readTags r.tags,
      timestamp := r.timestamp }

/-- Stable descending insertion used to model Python
`sorted(..., key=..., reverse=True)`: a new element goes after every earlier
element whose key is greater or equal, so equal-key elements keep their
original relative order. -/
def insertDesc {α : Type} (key : α → Nat) (p : α) : List α → List α
  | [] => [p]
  | q :: rest => if key p ≤ key q then q :: insertDesc key p rest else p :: q :: rest

/-- Stable descending sort by a `Nat` key (model of Python `sorted` with
`reverse=True`). -/
def sortDesc {α : Type} (key : α → Nat) (l : List α) : List α :=
  l.foldl (fun acc p => insertDesc key p acc) []

/-- Descending lexicographic insertion on the (timestamp, id) key: a new row
goes after every row whose key is greater or equal. -/
def insertIdxDesc (p : CmdRow) : List CmdRow → List CmdRow
  | [] => [p]
  | q :: rest =>
    if p.timestamp < q.timestamp ∨ (p.timestamp = q.timestamp ∧ p.id ≤ q.id) then
      q :: insertIdxDesc p rest
    else p :: q :: rest

/-- Models `crud.list_commands`'s query
`query(Command).order_by(Command.timestamp.desc()).all()`. models.py declares
`index=True` on the timestamp column, so SQLite answers this ORDER BY with a
reverse scan of `ix_commands_timestamp`; index entries are ordered by
(timestamp, rowid), so the scan yields the rows sorted by the lexicographic
(timestamp, id) key descending — equal timestamps come back with id
descending. The insertion sort below produces exactly that order. -/
def listRowsSorted (store : List CmdRow) : List CmdRow :=
  store.foldl (fun acc p => insertIdxDesc p acc) []

/-- Models `crud.list_commands`: sort newest-first, then serialize inside the
session. -/
def list_commands (store : List CmdRow) : List SerializedCmd :=
  _serialize_commands (listRowsSorted store)

theorem mem_insertDesc {α : Type} (key : α → Nat) (p q : α) (l : List α) :
    q ∈ insertDesc key p l ↔ q = p ∨ q ∈ l := by
  induction l with
  | nil => simp [insertDesc]
  | cons x rest ih =>
    by_cases h : key p ≤ key x
    · simp [insertDesc, h, ih]
      tauto
    · simp [insertDesc, h]

theorem insertDesc_perm {α : Type} (key : α → Nat) (p : α) (l : List α) :
    List.Perm (insertDesc key p l) (p :: l) := by
  induction l with
  | nil => exact List.Perm.refl _
  | cons x rest ih =>
    by_cases h : key p ≤ key x
    · simp only [insertDesc, h, if_true]
      exact (ih.cons x).trans (List.Perm.swap p x rest)
    · simp [insertDesc, h]

theorem sortDesc_foldl_perm {α : Type} (key : α → Nat) (l acc : List α) :
    List.Perm (l.foldl (fun acc p => insertDesc key p acc) acc) (l ++ acc) := by
  induction l generalizing acc with
  | nil => simp
  | cons x rest ih =>
    have h1 : List.Perm
        (rest.foldl (fun acc p => insertDesc key p acc) (insertDesc key x acc))
        (rest ++ insertDesc key x acc) := ih _
    have h2 : List.Perm (rest ++ insertDesc key x acc) (rest ++ x :: acc) :=
      List.Perm.append_left rest (insertDesc_perm key x acc)
    have h3 : List.Perm (rest ++ x :: acc) (x :: (rest ++ acc)) := List.perm_middle
    exact (h1.trans h2).trans h3

theorem sortDesc_perm {α : Type} (key : α → Nat) (l : List α) :
    List.Perm (sortDesc key l) l := by
  simpa using sortDesc_foldl_perm key l []

theorem insertDesc_pairwise_ge {α : Type} (key : α → Nat) (p : α) (l : List α)
    (h : l.Pairwise fun a b => key b ≤ key a) :
    (insertDesc key p l).Pairwise fun a b => key b ≤ key a := by
  induction l with
  | nil => simp [insertDesc]
  | cons x rest ih =>
    rcases List.pairwise_cons.mp h with ⟨hx, hrest⟩
    by_cases hk : key p ≤ key x
    · simp only [insertDesc, hk, if_true]
      refine List.pairwise_cons.mpr ⟨?_, ih hrest⟩
      intro b hb
      rcases (mem_insertDesc key p b rest).mp hb with h1 | h2
      · rw [h1]; exact hk
      · exact hx b h2
    · simp only [insertDesc, hk, if_false]
      refine List.pairwise_cons.mpr ⟨?_, h⟩
      intro b hb
      rcases List.mem_cons.mp hb with h1 | h2
      · rw [h1]; omega
      · exact le_trans (hx b h2) (by omega)

theorem sortDesc_pairwise_ge {α : Type} (key : α → Nat) (l : List α) :
    (sortDesc key l).Pairwise fun a b => key b ≤ key a := by
  have main : ∀ (l acc : List α), (acc.Pairwise fun a b => key b ≤ key a) →
      (l.foldl (fun acc p => insertDesc key p acc) acc).Pairwise
        fun a b => key b ≤ key a := by
    intro l
    induction l with
    | nil => intro acc h; exact h
    | cons x rest ih =>
      intro acc h
      exact ih _ (insertDesc_pairwise_ge key x acc h)
  exact main l [] (by simp)

theorem mem_insertIdxDesc (p q : CmdRow) (l : List CmdRow) :
    q ∈ insertIdxDesc p l ↔ q = p ∨ q ∈ l := by
  induction l with
  | nil => simp [insertIdxDesc]
  | cons x rest ih =>
    by_cases h : p.timestamp < x.timestamp ∨ (p.timestamp = x.timestamp ∧ p.id ≤ x.id)
    · simp [insertIdxDesc, h, ih]
      tauto
    · simp [insertIdxDesc, h]

theorem insertIdxDesc_perm (p : CmdRow) (l : List CmdRow) :
    List.Perm (insertIdxDesc p l) (p :: l) := by
  induction l with
  | nil => exact List.Perm.refl _
  | cons x rest ih =>
    by_cases h : p.timestamp < x.timestamp ∨ (p.timestamp = x.timestamp ∧ p.id ≤ x.id)
    · simp only [insertIdxDesc, if_pos h]
      exact (ih.cons x).trans (List.Perm.swap p x rest)
    · simp [insertIdxDesc, h]

theorem listRowsSorted_foldl_perm (l acc : List CmdRow) :
    List.Perm (l.foldl (fun acc p => insertIdxDesc p acc) acc) (l ++ acc) := by
  induction l generalizing acc with
  | nil => simp
  | cons x rest ih =>
    have h1 : List.Perm
        (rest.foldl (fun acc p => insertIdxDesc p acc) (insertIdxDesc x acc))
        (rest ++ insertIdxDesc x acc) := ih _
    have h2 : List.Perm (rest ++ insertIdxDesc x acc) (rest ++ x :: acc) :=
      List.Perm.append_left rest (insertIdxDesc_perm x acc)
    have h3 : List.Perm (rest ++ x :: acc) (x :: (rest ++ acc)) := List.perm_middle
    exact (h1.trans h2).trans h3

theorem listRowsSorted_perm (store : List CmdRow) :
    List.Perm (listRowsSorted store) store := by
  simpa using listRowsSorted_foldl_perm store []

/-- Output order of the reverse scan of `ix_commands_timestamp`: strictly
newer timestamp first; equal timestamps by id descending (the `≤` covers the
degenerate equal-id case, unreachable for a primary key). -/
def idxOrder (a b : CmdRow) : Prop :=
  b.timestamp < a.timestamp ∨ (a.timestamp = b.timestamp ∧ b.id ≤ a.id)

theorem insertIdxDesc_pairwise (p : CmdRow) (l : List CmdRow)
    (h : l.Pairwise idxOrder) : (insertIdxDesc p l).Pairwise idxOrder := by
  induction l with
  | nil => simp [insertIdxDesc]
  | cons q rest ih =>
    rcases List.pairwise_cons.mp h with ⟨hq, hrest⟩
    by_cases hc : p.timestamp < q.timestamp ∨ (p.timestamp = q.timestamp ∧ p.id ≤ q.id)
    · simp only [insertIdxDesc, if_pos hc]
      refine List.pairwise_cons.mpr ⟨?_, ih hrest⟩
      intro b hb
      rcases (mem_insertIdxDesc p b rest).mp hb with h1 | h2
      · rw [h1]
        unfold idxOrder
        rcases hc with h3 | ⟨h3, h4⟩
        · exact Or.inl h3
        · exact Or.inr ⟨h3.symm, h4⟩
      · exact hq b h2
    · simp only [insertIdxDesc, if_neg hc]
      push_neg at hc
      obtain ⟨hc1, hc2⟩ := hc
      refine List.pairwise_cons.mpr ⟨?_, h⟩
      intro b hb
      rcases List.mem_cons.mp hb with h1 | h2
      · rw [h1]
        unfold idxOrder
        rcases Nat.lt_or_ge q.timestamp p.timestamp with hlt | hge
        · exact Or.inl hlt
        · have heq : p.timestamp = q.timestamp := by omega
          exact Or.inr ⟨heq, Nat.le_of_lt (hc2 heq)⟩
      · have hqb := hq b h2
        unfold idxOrder at hqb ⊢
        rcases hqb with h3 | ⟨h3, h4⟩
        · exact Or.inl (by omega)
        · rcases Nat.lt_or_ge b.timestamp p.timestamp with hlt | hge
          · exact Or.inl hlt
          · have heq : p.timestamp = q.timestamp := by omega
            have hid : q.id < p.id := hc2 heq
            exact Or.inr ⟨by omega, by omega⟩

theorem listRowsSorted_pairwise (store : List CmdRow) :
    (listRowsSorted store).Pairwise idxOrder := by
  have main : ∀ (l acc : List CmdRow), acc.Pairwise idxOrder →
      (l.foldl (fun acc p => insertIdxDesc p acc) acc).Pairwise idxOrder := by
    intro l
    induction l with
    | nil => intro acc h; exact h
    | cons x rest ih =>
      intro acc h
      exact ih _ (insertIdxDesc_pairwise x acc h)
  exact main store [] (by simp)

/-- C4: for every store state the list operation returns all rows (a
permutation of the store) sorted non-increasing by timestamp, and among rows
with equal timestamps the order is id descending (newest insertion first):
the reverse scan of the timestamp index yields the lexicographic
(timestamp, id) descending order. -/
theorem c4_list_sorted (store : List CmdRow) :
    List.Perm (listRowsSorted store) store ∧
    ((listRowsSorted store).Pairwise fun a b => b.timestamp ≤ a.timestamp) ∧
    ((listRowsSorted store).Pairwise fun a b =>
      a.timestamp = b.timestamp → b.id ≤ a.id) ∧
    list_commands store = _serialize_commands (listRowsSorted store) := by
  refine ⟨listRowsSorted_perm store, ?_, ?_, rfl⟩
  · refine (listRowsSorted_pairwise store).imp ?_
    intro a b h
    rcases h with h | ⟨h1, h2⟩ <;> omega
  · refine (listRowsSorted_pairwise store).imp ?_
    intro a b h heq
    rcases h with h | ⟨h1, h2⟩ <;> omega

/-- Insertion-ordered counter dictionary, modelling the Python dicts used as
counters in crud.py. -/
abbrev Dict := List (String × Nat)

/-- Python `d.get(k, 0)`. -/
def dget : Dict → String → Nat
  | [], _ => 0
  | (k2, v) :: rest, k => if k2 = k then v else dget rest k

/-- Python `d[k] = v`: updates in place if the key exists, otherwise appends
(preserving dict insertion order). -/
def dset : Dict → String → Nat → Dict
  | [], k, v => [(k, v)]
  | (k2, v2) :: rest, k, v =>
    if k2 = k then (k, v) :: rest else (k2, v2) :: dset rest k v

/-- Python `d[k] = d.get(k, 0) + 1`. -/
def incr (d : Dict) (k : String) : Dict := dset d k (dget d k + 1)

/-- Language marker dictionary from `analyze_preferences` (crud.py lines
102-110), in dict insertion order. -/
def lang_markers : List (String × List String) :=
  [("python", ["python", ".py", "pip", "pytest", "uv ", "conda", "poetry", "ruff", "mypy"]),
   ("typescript", ["typescript", "ts ", ".ts", "tsc", "pnpm", "vite", "nextjs", "next.js"]),
   ("javascript", ["javascript", "js ", ".js", "npm", "yarn", "node"]),
   ("go", ["golang", " go ", ".go", "go build", "go test"]),
   ("java", [" java ", ".java", "maven", "mvn ", "gradle"]),
   ("rust", ["rust", ".rs", "cargo"]),
   ("bash", ["bash", "zsh", ".sh", "shell"])]

/-- Iteration order of `lang_markers.keys()`. -/
def langNames : List String := lang_markers.map fun p => p.1

/-- The per-language marker lists concatenated in dict order: iterating
`for lang, markers in lang_markers.items(): count_if_present(...)` performs
exactly one `count_if_present` pass over this flattened list. -/
def allLangMarkersFlat : List String := (lang_markers.map fun p => p.2).flatten

/-- Task keyword list (crud.py lines 111-114). -/
def task_markers : List String :=
  ["refactor", "test", "optimize", "document", "deploy", "debug",
   "fix", "lint", "typecheck", "benchmark", "profile", "migrate"]

/-- Style keyword list (crud.py line 115). -/
def style_markers : List String :=
  ["async", "clean", "performance", "oop", "functional", "tdd", "cli", "script"]

/-- Framework keyword list (crud.py lines 116-119). -/
def framework_markers : List String :=
  ["fastapi", "flask", "django", "react", "nextjs", "vue", "svelte",
   "spring", "springboot", "express", "nestjs"]

/-- Tool keyword list (crud.py lines 120-124). -/
def tool_markers : List String :=
  ["docker", "kubernetes", "k8s", "git", "curl", "jq", "pytest", "pip", "conda", "poetry", "uv ",
   "alembic", "black", "ruff", "flake8", "mypy", "pre-commit", "eslint", "prettier", "jest", "vitest",
   "playwright", "cypress"]

/-- Models `count_if_present` from crud.py (lines 126-130). `key_map` is
`None` at every call site, so the counter key is the marker string itself. -/
def count_if_present (text : String) (markers : List String) (counter : Dict) : Dict :=
  markers.foldl (fun c m => if substrB (pyLower m) text then incr c m else c) counter

/-- Detached per-record snapshot taken by `analyze_preferences` while the
session is open: command text (non-nullable column) plus decoded tag list. -/
structure SnapItem where
  command_text : String
  tags : List String
deriving DecidableEq, Repr

/-- Snapshot of the store as built in crud.py lines 83-91. -/
def snapOf (store : List CmdRow) : List SnapItem :=
  store.map fun r => { command_text := r.command_text, tags := readTags r.tags }

/-- Per-record lowered non-empty tags: `[t.lower() for t in item["tags"] if t]`. -/
def loweredTags (item : SnapItem) : List String :=
  (item.tags.filter fun t => t ≠ "").map pyLower

/-- Language-from-tags pass (crud.py lines 142-144): for each language name in
dict order, bump its counter if the name is among the record's tags. -/
def tagLangPass (tags : List String) (d : Dict) : Dict :=
  langNames.foldl (fun d lang => if lang ∈ tags then incr d lang else d) d

/-- The six counters maintained by `analyze_preferences` (crud.py lines
93-99). -/
structure Counters where
  tag_counts : Dict
  language_counts : Dict
  task_counts : Dict
  style_counts : Dict
  framework_counts : Dict
  tool_counts : Dict
deriving DecidableEq, Repr

/-- One iteration of the aggregation loop (crud.py lines 133-158). The six
counters are mutually independent, so the updates are written field by
field; the language counter receives the tag pass first and then the text
pass over the flattened marker list, exactly as the source iterates. The
`count_before` bookkeeping in lines 148-152 is dead code (its body is
`pass`) and is omitted. -/
def aggStep (cs : Counters) (item : SnapItem) : Counters :=
  let tags := loweredTags item
  let lower := pyLower item.command_text
  { tag_counts := tags.foldl (fun d t => incr d t) cs.tag_counts,
    language_counts :=
      count_if_present lower allLangMarkersFlat (tagLangPass tags cs.language_counts),
    task_counts := count_if_present lower task_markers cs.task_counts,
    style_counts := count_if_present lower style_markers cs.style_counts,
    framework_counts := count_if_present lower framework_markers cs.framework_counts,
    tool_counts := count_if_present lower tool_markers cs.tool_counts }

/-- The aggregation loop over the whole snapshot. -/
def aggregate (snap : List SnapItem) : Counters :=
  snap.foldl aggStep { tag_counts := [], language_counts := [], task_counts := [],
                       style_counts := [], framework_counts := [], tool_counts := [] }

/-- Python `str.capitalize()`: first character upper-cased, the rest
lower-cased. -/
def pyCapitalize (s : String) : String :=
  match s.toList with
  | [] => ""
  | c :: rest => ofList (c.toUpper :: rest.map Char.toLower)

/-- The output transform of crud.py line 168:
`top_lang.capitalize() if top_lang == "python" else top_lang`. -/
def capFix (lang : String) : String :=
  if lang = "python" then pyCapitalize lang else lang

/-- Round-half-to-even on exact rationals, modelling Python's `round`
(Python rounds the nearest binary double; on the values reachable here the
two agree). -/
def roundHalfEven (q : ℚ) : ℤ :=
  let f := ⌊q⌋
  let r := q - (f : ℚ)
  if r < 1/2 then f
  else if 1/2 < r then f + 1
  else if f % 2 = 0 then f else f + 1

/-- Python `round(q, 3)`. -/
def round3 (q : ℚ) : ℚ := (roundHalfEven (q * 1000) : ℚ) / 1000

/-- Python `sum(d.values())`. -/
def sumVals (d : Dict) : Nat := d.foldl (fun acc p => acc + p.2) 0

/-- Preferred-language selection (crud.py lines 160-169): stable descending
sort of the language counter; head is the winner; confidence is its count
over the total, rounded to 3 places. `sortDesc d` is empty exactly when `d`
is, so matching on the sorted list models the `if language_counts:` guard. -/
def preferredOf (d : Dict) : Option String × Option ℚ :=
  match sortDesc (fun p => p.2) d with
  | [] => (none, none)
  | (top_lang, top_count) :: _ =>
    let total := sumVals d
    let confidence : ℚ := if total = 0 then 1 else (top_count : ℚ) / (total : ℚ)
    (some (capFix top_lang), some (round3 confidence))

/-- Python `str.replace` at the character level (all occurrences). -/
def replaceL (pat rep : List Char) : List Char → List Char
  | [] => []
  | c :: rest =>
    if matchesAt pat (c :: rest) then
      rep ++ replaceL pat rep (List.drop (pat.length - 1) rest)
    else c :: replaceL pat rep rest
termination_by l => l.length
decreasing_by
  all_goals simp [List.length_drop]
  all_goals omega

/-- Python `s.replace(pat, rep)`. -/
def pyReplace (s pat rep : String) : String :=
  ofList (replaceL pat.toList rep.toList s.toList)

/-- Output shape of `analyze_preferences` (crud.py lines 182-197); the
`signals` sub-dict is flattened into the five `signals_*` fields. -/
structure Preferences where
  preferred_language : Option String
  preferred_language_confidence : Option ℚ
  common_tasks : List String
  style : Option String
  frameworks : List String
  tools : List String
  signals_languages : Dict
  signals_tasks : Dict
  signals_styles : Dict
  signals_frameworks : Dict
  signals_tools : Dict
deriving DecidableEq, Repr

/-- Display transform of crud.py line 176:
`k.upper() if k in ("oop", "tdd") else k`. -/
def displayStyle (k : String) : String :=
  if k = "oop" ∨ k = "tdd" then pyUpper k else k

/-- The top-5 style keyword list (before joining), crud.py line 176. -/
def styleTopList (store : List CmdRow) : List String :=
  ((sortDesc (fun p => p.2) (aggregate (snapOf store)).style_counts).take 5).map
    fun p => displayStyle p.1

/-- Models `crud.analyze_preferences`. The style summary is the `", "`-join
of the top style keywords, or `None` when the join is empty (Python's
`... or None`); `common_tasks` renames `document` to `documentation` via
`str.replace`. -/
def analyze_preferences (store : List CmdRow) : Preferences :=
  let cs := aggregate (snapOf store)
  let pr := preferredOf cs.language_counts
  let styleJoined := pyJoin ", " (styleTopList store)
  { preferred_language := pr.1,
    preferred_language_confidence := pr.2,
    common_tasks := ((sortDesc (fun p => p.2) cs.task_counts).take 5).map
      fun p => pyReplace p.1 "document" "documentation",
    style := if styleJoined = "" then none else some styleJoined,
    frameworks := ((sortDesc (fun p => p.2) cs.framework_counts).take 5).map fun p => p.1,
    tools := ((sortDesc (fun p => p.2) cs.tool_counts).take 8).map fun p => p.1,
    signals_languages := cs.language_counts,
    signals_tasks := cs.task_counts,
    signals_styles := cs.style_counts,
    signals_frameworks := cs.framework_counts,
    signals_tools := cs.tool_counts }

theorem count_if_present_no_match (text : String) (markers : List String) (d : Dict)
    (h : ∀ m ∈ markers, substrB (pyLower m) text = false) :
    count_if_present text markers d = d := by
  induction markers generalizing d with
  | nil => rfl
  | cons m ms ih =>
    have hm := h m (List.mem_cons_self _ _)
    show List.foldl _ (if substrB (pyLower m) text then incr d m else d) ms = d
    rw [hm]
    simp only [Bool.false_eq_true, if_false]
    exact ih d (fun m2 hm2 => h m2 (List.mem_cons_of_mem _ hm2))

/-- First element attaining the maximal count: later elements replace the
accumulator only on a strictly greater count, so ties keep the earlier
(first-inserted) entry — the head of the stable descending sort. -/
def pickMax (best q : String × Nat) : String × Nat :=
  if best.2 < q.2 then q else best

theorem foldl_insertDesc_head (t : List (String × Nat)) (a : String × Nat)
    (acc : List (String × Nat)) :
    (t.foldl (fun acc p => insertDesc (fun p => p.2) p acc) (a :: acc)).head?
      = some (t.foldl pickMax a) := by
  induction t generalizing a acc with
  | nil => rfl
  | cons x t2 ih =>
    show (t2.foldl _ (insertDesc (fun p => p.2) x (a :: acc))).head?
      = some (t2.foldl pickMax (pickMax a x))
    by_cases h : x.2 ≤ a.2
    · have hins : insertDesc (fun p : String × Nat => p.2) x (a :: acc)
          = a :: insertDesc (fun p => p.2) x acc := by
        simp [insertDesc, h]
      have hpick : pickMax a x = a := by
        simp only [pickMax, if_neg (by omega : ¬ a.2 < x.2)]
      rw [hins, hpick]
      exact ih a _
    · have hins : insertDesc (fun p : String × Nat => p.2) x (a :: acc)
          = x :: a :: acc := by
        simp [insertDesc, h]
      have hpick : pickMax a x = x := by
        simp only [pickMax, if_pos (by omega : a.2 < x.2)]
      rw [hins, hpick]
      exact ih x _

theorem sortDesc_head (p : String × Nat) (t : Dict) :
    (sortDesc (fun q => q.2) (p :: t)).head? = some (t.foldl pickMax p) := by
  show ((p :: t).foldl (fun acc q => insertDesc (fun q => q.2) q acc) []).head? = _
  have hstep : (p :: t).foldl (fun acc q => insertDesc (fun q : String × Nat => q.2) q acc) []
      = t.foldl (fun acc q => insertDesc (fun q => q.2) q acc) [p] := rfl
  rw [hstep]
  exact foldl_insertDesc_head t p []

theorem preferredOf_fst (p : String × Nat) (t : Dict) :
    (preferredOf (p :: t)).1 = some (capFix (t.foldl pickMax p).1) := by
  have hhead := sortDesc_head p t
  cases hs : sortDesc (fun q => q.2) (p :: t) with
  | nil =>
    rw [hs] at hhead
    simp at hhead
  | cons q rest =>
    rw [hs] at hhead
    simp only [List.head?_cons, Option.some.injEq] at hhead
    obtain ⟨ql, qc⟩ := q
    unfold preferredOf
    rw [hs]
    simp only []
    rw [← hhead]

/-- C6, amended: when the language counter is non-empty (in particular at any
tie for the maximal count), `preferred_language` is the capitalization-fixed
FIRST entry of the counter attaining the maximal count — i.e. ties are broken
by insertion order of the language counter (the order signals were first
encountered), not by a fixed python-first precedence list. -/
theorem c6_tie_break_insertion_order (store : List CmdRow) (p : String × Nat) (t : Dict)
    (h : (aggregate (snapOf store)).language_counts = p :: t) :
    (analyze_preferences store).preferred_language
      = some (capFix (t.foldl pickMax p).1) := by
  have hproj : (analyze_preferences store).preferred_language
      = (preferredOf (aggregate (snapOf store)).language_counts).1 := rfl
  rw [hproj, h, preferredOf_fst]

/-- C6 counterexample: with one record tagged "go" inserted before one record
tagged "python" (texts free of language markers), both languages tie at
count 1, yet the preferred language is "go" — the first-inserted counter key
— not "python" as the claimed fixed precedence requires. -/
theorem c6_counterexample :
    (aggregate (snapOf
      [{ id := 1, command_text := "x", tags := "go", timestamp := 0 },
       { id := 2, command_text := "y", tags := "python", timestamp := 0 }])).language_counts
      = [("go", 1), ("python", 1)] ∧
    (analyze_preferences
      [{ id := 1, command_text := "x", tags := "go", timestamp := 0 },
       { id := 2, command_text := "y", tags := "python", timestamp := 0 }]).preferred_language
      = some "go" ∧
    (some "go" : Option String) ≠ some "python" ∧
    (some "go" : Option String) ≠ some "Python" := by
  refine ⟨by decide, by decide, by decide, by decide⟩

/-- C6 witness: the amended theorem applied to the concrete tied store; the
first-inserted maximal entry ("go") wins. -/
theorem c6_witness :
    (analyze_preferences
      [{ id := 1, command_text := "x", tags := "go", timestamp := 0 },
       { id := 2, command_text := "y", tags := "python", timestamp := 0 }]).preferred_language
      = some (capFix (([("python", 1)] : Dict).foldl pickMax ("go", 1)).1) :=
  c6_tie_break_insertion_order _ ("go", 1) [("python", 1)] (by decide)

/-- C3, amended: with exactly three records tagged ["python"], ["python"],
["go"] whose texts fire no language marker, the preferred language is the
CAPITALIZED string "Python" (crud.py line 168 applies `str.capitalize` when
the winner is "python"), with confidence 2/3 rounded to 3 places = 0.667. -/
theorem c3_three_records (t1 t2 t3 : String)
    (h1 : ∀ m ∈ allLangMarkersFlat, substrB (pyLower m) (pyLower t1) = false)
    (h2 : ∀ m ∈ allLangMarkersFlat, substrB (pyLower m) (pyLower t2) = false)
    (h3 : ∀ m ∈ allLangMarkersFlat, substrB (pyLower m) (pyLower t3) = false) :
    (analyze_preferences
      [{ id := 1, command_text := t1, tags := "python", timestamp := 0 },
       { id := 2, command_text := t2, tags := "python", timestamp := 0 },
       { id := 3, command_text := t3, tags := "go", timestamp := 0 }]).preferred_language
      = some "Python" ∧
    (analyze_preferences
      [{ id := 1, command_text := t1, tags := "python", timestamp := 0 },
       { id := 2, command_text := t2, tags := "python", timestamp := 0 },
       { id := 3, command_text := t3, tags := "go", timestamp := 0 }]).preferred_language_confidence
      = some (667/1000 : ℚ) := by
  have e1 : ∀ d : Dict, count_if_present (pyLower t1) allLangMarkersFlat d = d :=
    fun d => count_if_present_no_match _ _ d (fun m hm => h1 m hm)
  have e2 : ∀ d : Dict, count_if_present (pyLower t2) allLangMarkersFlat d = d :=
    fun d => count_if_present_no_match _ _ d (fun m hm => h2 m hm)
  have e3 : ∀ d : Dict, count_if_present (pyLower t3) allLangMarkersFlat d = d :=
    fun d => count_if_present_no_match _ _ d (fun m hm => h3 m hm)
  have hlc : (aggregate (snapOf
      [{ id := 1, command_text := t1, tags := "python", timestamp := 0 },
       { id := 2, command_text := t2, tags := "python", timestamp := 0 },
       { id := 3, command_text := t3, tags := "go", timestamp := 0 }])).language_counts
      = count_if_present (pyLower t3) allLangMarkersFlat (tagLangPass ["go"]
          (count_if_present (pyLower t2) allLangMarkersFlat (tagLangPass ["python"]
            (count_if_present (pyLower t1) allLangMarkersFlat
              (tagLangPass ["python"] []))))) := rfl
  rw [e1, e2, e3] at hlc
  have hfinal : (aggregate (snapOf
      [{ id := 1, command_text := t1, tags := "python", timestamp := 0 },
       { id := 2, command_text := t2, tags := "python", timestamp := 0 },
       { id := 3, command_text := t3, tags := "go", timestamp := 0 }])).language_counts
      = [("python", 2), ("go", 1)] := by
    rw [hlc]
    decide
  have hpl : (analyze_preferences
      [{ id := 1, command_text := t1, tags := "python", timestamp := 0 },
       { id := 2, command_text := t2, tags := "python", timestamp := 0 },
       { id := 3, command_text := t3, tags := "go", timestamp := 0 }]).preferred_language
      = (preferredOf [("python", 2), ("go", 1)]).1 := by
    rw [show (analyze_preferences
      [{ id := 1, command_text := t1, tags := "python", timestamp := 0 },
       { id := 2, command_text := t2, tags := "python", timestamp := 0 },
       { id := 3, command_text := t3, tags := "go", timestamp := 0 }]).preferred_language
      = (preferredOf (aggregate (snapOf
        [{ id := 1, command_text := t1, tags := "python", timestamp := 0 },
         { id := 2, command_text := t2, tags := "python", timestamp := 0 },
         { id := 3, command_text := t3, tags := "go", timestamp := 0 }])).language_counts).1
      from rfl, hfinal]
  have hconf : (analyze_preferences
      [{ id := 1, command_text := t1, tags := "python", timestamp := 0 },
       { id := 2, command_text := t2, tags := "python", timestamp := 0 },
       { id := 3, command_text := t3, tags := "go", timestamp := 0 }]).preferred_language_confidence
      = (preferredOf [("python", 2), ("go", 1)]).2 := by
    rw [show (analyze_preferences
      [{ id := 1, command_text := t1, tags := "python", timestamp := 0 },
       { id := 2, command_text := t2, tags := "python", timestamp := 0 },
       { id := 3, command_text := t3, tags := "go", timestamp := 0 }]).preferred_language_confidence
      = (preferredOf (aggregate (snapOf
        [{ id := 1, command_text := t1, tags := "python", timestamp := 0 },
         { id := 2, command_text := t2, tags := "python", timestamp := 0 },
         { id := 3, command_text := t3, tags := "go", timestamp := 0 }])).language_counts).2
      from rfl, hfinal]
  refine ⟨?_, ?_⟩
  · rw [hpl]
    decide
  · rw [hconf]
    have h2 : (preferredOf [("python", 2), ("go", 1)]).2
        = some (round3 ((2 : ℚ) / 3)) := by
      norm_num [preferredOf, sortDesc, insertDesc, sumVals, List.foldl]
    have h3 : round3 ((2 : ℚ) / 3) = 667/1000 := by
      unfold round3 roundHalfEven
      norm_num
    rw [h2, h3]

/-- C3 counterexample: at a concrete instance of the claimed scenario the
preferred language is "Python" (capitalized), not the claimed lowercase
"python". -/
theorem c3_counterexample :
    (analyze_preferences
      [{ id := 1, command_text := "x", tags := "python", timestamp := 0 },
       { id := 2, command_text := "y", tags := "python", timestamp := 0 },
       { id := 3, command_text := "z", tags := "go", timestamp := 0 }]).preferred_language
      = some "Python" ∧
    (some "Python" : Option String) ≠ some "python" := by
  refine ⟨by decide, by decide⟩

/-- C3 witness: the amended theorem applied to concrete marker-free texts. -/
theorem c3_witness :
    (analyze_preferences
      [{ id := 1, command_text := "x", tags := "python", timestamp := 0 },
       { id := 2, command_text := "y", tags := "python", timestamp := 0 },
       { id := 3, command_text := "z", tags := "go", timestamp := 0 }]).preferred_language
      = some "Python" ∧
    (analyze_preferences
      [{ id := 1, command_text := "x", tags := "python", timestamp := 0 },
       { id := 2, command_text := "y", tags := "python", timestamp := 0 },
       { id := 3, command_text := "z", tags := "go", timestamp := 0 }]).preferred_language_confidence
      = some (667/1000 : ℚ) :=
  c3_three_records "x" "y" "z" (by decide) (by decide) (by decide)

/-- C5: evaluating the language counter at the failing input — one record
tagged "python" whose text "run .py" contains exactly one python marker
(".py") — shows the tag signal increments the "python" key once while the
text signal creates a separate ".py" key (count_if_present keys counters by
the marker string because key_map is None), so the "python" counter is NOT
incremented twice as the claim requires. -/
theorem c5_marker_keyed_counter :
    (aggregate (snapOf
      [{ id := 1, command_text := "run .py", tags := "python", timestamp := 0 }])).language_counts
      = [("python", 1), (".py", 1)] ∧
    dget (aggregate (snapOf
      [{ id := 1, command_text := "run .py", tags := "python", timestamp := 0 }])).language_counts
      "python" = 1 := by
  refine ⟨by decide, by decide⟩

/-- Contextual keyword groups from `analyze_preferences_contextual` (crud.py
lines 214-221), in dict insertion order. -/
def context_groups : List (String × List String) :=
  [("documentation", ["doc", "docs", "documentation", "readme", "comment", "write", "update"]),
   ("testing", ["test", "pytest", "coverage", "unit", "integration"]),
   ("performance", ["perf", "optimize", "benchmark", "profile"]),
   ("deployment", ["deploy", "docker", "k8s", "kubernetes", "release"]),
   ("refactor", ["refactor", "clean", "restructure"]),
   ("debug", ["debug", "trace", "error", "fail"])]

/-- The groups whose trigger keywords occur in the lowered context (crud.py
line 223), kept with their keyword lists. -/
def matchedPairs (lowered : String) : List (String × List String) :=
  context_groups.filter fun g => g.2.any fun k => substrB k lowered

/-- `matched_groups`: names of the matched groups, in dict order. -/
def matchedGroups (lowered : String) : List String :=
  (matchedPairs lowered).map fun g => g.1

/-- `relevance_words`: the trigger keywords of all matched groups,
concatenated in matched order (crud.py lines 232-234). -/
def relevanceWords (lowered : String) : List String :=
  ((matchedPairs lowered).map fun g => g.2).flatten

/-- Models `filter_list` from crud.py lines 226-230: empty relevance set
filters to nothing; otherwise keep the values sharing a substring with the
lowered context or containing a relevance word. -/
def filter_list (lowered : String) (values relevance_words : List String) : List String :=
  if relevance_words.isEmpty then []
  else values.filter fun v => relevance_words.any fun w => substrB w lowered || substrB w v

/-- Output shape of `analyze_preferences_contextual` (crud.py lines 236-249);
the `signals_overlap` sub-dict is flattened into the three `overlap_*`
fields, and the optional `note` key is an `Option`. -/
structure ContextualPrefs where
  matched_groups : List String
  preferred_language : Option String
  style_subset : List String
  tasks_subset : List String
  frameworks_subset : List String
  tools_subset : List String
  overlap_tasks : Dict
  overlap_styles : Dict
  overlap_tools : Dict
  context : String
  note : Option String
deriving DecidableEq, Repr

/-- The contextual dict built for a non-`None` base style summary `s`,
including the fallback overwrite of crud.py lines 251-257 when no group
matched. Line 239 of the source splits `s` on `", "`; the fallback
re-reads the summary and splits it again only when it is truthy. -/
def contextualBody (base : Preferences) (context : String) (s : String) : ContextualPrefs :=
  let lowered := pyLower context
  let matched_groups := matchedGroups lowered
  let relevance_words := relevanceWords lowered
  let contextual : ContextualPrefs :=
    { matched_groups := matched_groups,
      preferred_language := base.preferred_language,
      style_subset := filter_list lowered (pySplitSeq ", " s) relevance_words,
      tasks_subset := filter_list lowered base.common_tasks relevance_words,
      frameworks_subset := filter_list lowered base.frameworks relevance_words,
      tools_subset := filter_list lowered base.tools relevance_words,
      overlap_tasks := base.signals_tasks.filter fun p => relevance_words.contains p.1,
      overlap_styles := base.signals_styles.filter fun p => relevance_words.contains p.1,
      overlap_tools := base.signals_tools.filter fun p => relevance_words.contains p.1,
      context := context,
      note := none }
  if matched_groups.isEmpty then
    { contextual with
      tasks_subset := base.common_tasks.take 3,
      style_subset := if s = "" then [] else pySplitSeq ", " s,
      frameworks_subset := base.frameworks.take 3,
      tools_subset := base.tools.take 5,
      note := some "No specific contextual group matched; returned neutral top signals." }
  else contextual

/-- Models `crud.analyze_preferences_contextual`. The `limit` parameter is
accepted and never read, exactly as in the source. When the base style
summary is `None`, line 239 evaluates `None.split(", ")` and the call raises
`AttributeError` (dict `.get` with a default does not apply to a present key
holding `None`); this is modelled by the error branch. -/
def analyze_preferences_contextual (store : List CmdRow) (context : String)
    (limit : Nat) : Except String ContextualPrefs :=
  match (analyze_preferences store).style with
  | none => Except.error "AttributeError"
  | some s => Except.ok (contextualBody (analyze_preferences store) context s)

/-- C9: the limit argument has no influence on contextualPreferences — the
body never reads it. -/
theorem c9_limit_unused (store : List CmdRow) (context : String) (l1 l2 : Nat) :
    analyze_preferences_contextual store context l1
      = analyze_preferences_contextual store context l2 := rfl

theorem keys_dset (d : Dict) (k : String) (v : Nat) (k2 : String)
    (h : k2 ∈ (dset d k v).map Prod.fst) : k2 = k ∨ k2 ∈ d.map Prod.fst := by
  induction d with
  | nil =>
    simp [dset] at h
    exact Or.inl h
  | cons q rest ih =>
    obtain ⟨a, b⟩ := q
    by_cases ha : a = k
    · have hd : dset ((a, b) :: rest) k v = (k, v) :: rest := by simp [dset, ha]
      rw [hd, List.map_cons] at h
      rcases List.mem_cons.mp h with h1 | h2
      · exact Or.inl h1
      · exact Or.inr (by rw [List.map_cons]; exact List.mem_cons_of_mem _ h2)
    · have hd : dset ((a, b) :: rest) k v = (a, b) :: dset rest k v := by simp [dset, ha]
      rw [hd, List.map_cons] at h
      rcases List.mem_cons.mp h with h1 | h2
      · exact Or.inr (by rw [List.map_cons, h1]; exact List.mem_cons_self _ _)
      · rcases ih h2 with h3 | h4
        · exact Or.inl h3
        · exact Or.inr (by rw [List.map_cons]; exact List.mem_cons_of_mem _ h4)

theorem count_if_present_keys (text : String) (markers : List String) (d : Dict)
    (k2 : String) (h : k2 ∈ (count_if_present text markers d).map Prod.fst) :
    k2 ∈ markers ∨ k2 ∈ d.map Prod.fst := by
  induction markers generalizing d with
  | nil => exact Or.inr h
  | cons m ms ih =>
    have hstep : count_if_present text (m :: ms) d
        = count_if_present text ms
            (if substrB (pyLower m) text then incr d m else d) := rfl
    rw [hstep] at h
    rcases ih _ h with h1 | h2
    · exact Or.inl (List.mem_cons_of_mem _ h1)
    · cases hb : substrB (pyLower m) text with
      | false =>
        rw [hb] at h2
        simp only [Bool.false_eq_true, if_false] at h2
        exact Or.inr h2
      | true =>
        rw [hb] at h2
        simp only [if_true] at h2
        rcases keys_dset d m _ k2 h2 with h3 | h4
        · exact Or.inl (by rw [h3]; exact List.mem_cons_self _ _)
        · exact Or.inr h4

theorem aggregate_style_keys (snap : List SnapItem) (k2 : String)
    (h : k2 ∈ (aggregate snap).style_counts.map Prod.fst) : k2 ∈ style_markers := by
  have main : ∀ (l : List SnapItem) (cs : Counters),
      (∀ k ∈ cs.style_counts.map Prod.fst, k ∈ style_markers) →
      ∀ k ∈ (l.foldl aggStep cs).style_counts.map Prod.fst, k ∈ style_markers := by
    intro l
    induction l with
    | nil => intro cs hcs; exact hcs
    | cons it rest ih =>
      intro cs hcs
      refine ih (aggStep cs it) ?_
      intro k hk
      have hfield : (aggStep cs it).style_counts
          = count_if_present (pyLower it.command_text) style_markers cs.style_counts := rfl
      rw [hfield] at hk
      rcases count_if_present_keys _ _ _ k hk with h1 | h2
      · exact h1
      · exact hcs k h2
  exact main snap _ (by simp) k2 h

theorem styleTopList_mem (store : List CmdRow) (e : String) (he : e ∈ styleTopList store) :
    ∃ k ∈ style_markers, e = displayStyle k := by
  unfold styleTopList at he
  rcases List.mem_map.mp he with ⟨p, hp, hpe⟩
  have hp2 : p ∈ sortDesc (fun p : String × Nat => p.2) (aggregate (snapOf store)).style_counts :=
    List.take_subset _ _ hp
  have hp3 : p ∈ (aggregate (snapOf store)).style_counts :=
    (sortDesc_perm _ _).mem_iff.mp hp2
  exact ⟨p.1, aggregate_style_keys _ p.1 (List.mem_map_of_mem Prod.fst hp3), hpe.symm⟩

theorem displayStyle_props :
    ∀ k ∈ style_markers, displayStyle k ≠ "" ∧ ',' ∉ (displayStyle k).toList := by
  decide

theorem styleTopList_entries (store : List CmdRow) :
    ∀ e ∈ styleTopList store, e ≠ "" ∧ ',' ∉ e.toList := by
  intro e he
  rcases styleTopList_mem store e he with ⟨k, hk, he2⟩
  rw [he2]
  exact displayStyle_props k hk

theorem matchesAt_self_append (n r : List Char) : matchesAt n (n ++ r) = true := by
  induction n with
  | nil => rfl
  | cons a as ih => simp [matchesAt, ih]

theorem matchesAt_ne_head (c : Char) (s : List Char) (d : Char) (h2 : List Char)
    (hne : d ≠ c) : matchesAt (c :: s) (d :: h2) = false := by
  have hb : (c == d) = false := by
    rw [beq_eq_false_iff_ne]
    exact fun e => hne e.symm
  simp [matchesAt, hb]

theorem splitSeq_no_sep (c : Char) (s t : List Char) (h : c ∉ t) :
    splitSeq (c :: s) t = [t] := by
  induction t with
  | nil => simp [splitSeq]
  | cons d t2 ih =>
    have hd : d ≠ c := by
      intro e
      exact h (by rw [e]; exact List.mem_cons_self _ _)
    have hm : matchesAt (c :: s) (d :: t2) = false := matchesAt_ne_head c s d t2 hd
    have ht2 : c ∉ t2 := fun m => h (List.mem_cons_of_mem _ m)
    simp only [splitSeq, hm, Bool.false_eq_true, if_false, ih ht2]

theorem splitSeq_append (c : Char) (s rest t : List Char) (h : c ∉ t) :
    splitSeq (c :: s) (t ++ (c :: s) ++ rest) = t :: splitSeq (c :: s) rest := by
  induction t with
  | nil =>
    have hm : matchesAt (c :: s) (c :: (s ++ rest)) = true := by
      simpa using matchesAt_self_append (c :: s) rest
    have hdrop : List.drop ((c :: s).length - 1) (s ++ rest) = rest := by
      simp only [List.length_cons, Nat.add_sub_cancel]
      exact List.drop_left s rest
    simp only [List.nil_append, List.cons_append, splitSeq, hm, if_true, hdrop]
  | cons d t2 ih =>
    have hd : d ≠ c := by
      intro e
      exact h (by rw [e]; exact List.mem_cons_self _ _)
    have ht2 : c ∉ t2 := fun m => h (List.mem_cons_of_mem _ m)
    have hm : matchesAt (c :: s) (d :: (t2 ++ (c :: s) ++ rest)) = false :=
      matchesAt_ne_head c s d _ hd
    have hrec := ih ht2
    simp only [List.cons_append, List.append_assoc] at hrec hm ⊢
    simp only [splitSeq, hm, Bool.false_eq_true, if_false, hrec]

theorem splitSeq_joinL (c : Char) (s : List Char) (parts : List (List Char))
    (hne : parts ≠ []) (hfree : ∀ p ∈ parts, c ∉ p) :
    splitSeq (c :: s) (joinL (c :: s) parts) = parts := by
  induction parts with
  | nil => exact absurd rfl hne
  | cons x rest ih =>
    cases rest with
    | nil => simpa [joinL] using splitSeq_no_sep c s x (hfree x (by simp))
    | cons y rest2 =>
      have hx : c ∉ x := hfree x (by simp)
      have hjoin : joinL (c :: s) (x :: y :: rest2)
          = x ++ (c :: s) ++ joinL (c :: s) (y :: rest2) := by simp [joinL]
      rw [hjoin, splitSeq_append c s _ x hx,
        ih (by simp) (fun p hp => hfree p (List.mem_cons_of_mem _ hp))]

theorem map_ofList_toList (l : List String) : (l.map String.toList).map ofList = l := by
  rw [List.map_map]
  have h : ∀ s ∈ l, (ofList ∘ String.toList) s = s := by
    intro s _
    cases s
    rfl
  simpa using List.map_congr_left h

theorem pyRoundTripSeq (lst : List String) (hne : lst ≠ [])
    (hfree : ∀ e ∈ lst, ',' ∉ e.toList) :
    pySplitSeq ", " (pyJoin ", " lst) = lst := by
  unfold pyJoin pySplitSeq
  rw [toList_ofList]
  have hsep : (", " : String).toList = ',' :: [' '] := rfl
  rw [hsep]
  rw [splitSeq_joinL ',' [' '] (lst.map String.toList)
    (by
      intro h0
      exact hne (List.map_eq_nil_iff.mp h0))
    (by
      intro p hp
      rcases List.mem_map.mp hp with ⟨e, he, hpe⟩
      rw [← hpe]
      exact hfree e he)]
  exact map_ofList_toList lst

theorem style_some_eq (store : List CmdRow) (s : String)
    (h : (analyze_preferences store).style = some s) :
    s = pyJoin ", " (styleTopList store) ∧ s ≠ "" := by
  have hdef : (analyze_preferences store).style
      = (if pyJoin ", " (styleTopList store) = "" then none
         else some (pyJoin ", " (styleTopList store))) := rfl
  rw [hdef] at h
  by_cases hj : pyJoin ", " (styleTopList store) = ""
  · rw [if_pos hj] at h
    exact absurd h (by simp)
  · rw [if_neg hj] at h
    have heq := Option.some.inj h
    exact ⟨heq.symm, heq ▸ hj⟩

theorem contextualBody_fallback_projections (base : Preferences) (context : String)
    (s : String) (hmatch : matchedGroups (pyLower context) = []) :
    (contextualBody base context s).tasks_subset = base.common_tasks.take 3 ∧
    (contextualBody base context s).style_subset
      = (if s = "" then [] else pySplitSeq ", " s) ∧
    (contextualBody base context s).frameworks_subset = base.frameworks.take 3 ∧
    (contextualBody base context s).tools_subset = base.tools.take 5 ∧
    (contextualBody base context s).note.isSome = true := by
  simp [contextualBody, hmatch]

/-- C7, amended: provided the baseline style summary is non-null (at least
one style keyword matched some record), every context matching zero groups
receives the documented fallback: top-3 baseline tasks, the full baseline
style list, top-3 frameworks, top-5 tools, and a present note; "hello"
matches zero groups, while "please update the docs" matches exactly the
documentation group and yields a result with no note. When the baseline
style summary is null the operation instead raises AttributeError (see the
counterexample), which is the only deviation from the claim. -/
theorem c7_zero_match_fallback (store : List CmdRow) (context : String) (limit : Nat)
    (s : String) (hstyle : (analyze_preferences store).style = some s)
    (hmatch : matchedGroups (pyLower context) = []) :
    (∃ r : ContextualPrefs,
      analyze_preferences_contextual store context limit = Except.ok r ∧
      r.tasks_subset = (analyze_preferences store).common_tasks.take 3 ∧
      r.style_subset = styleTopList store ∧
      r.frameworks_subset = (analyze_preferences store).frameworks.take 3 ∧
      r.tools_subset = (analyze_preferences store).tools.take 5 ∧
      r.note.isSome = true) ∧
    matchedGroups (pyLower "hello") = [] ∧
    matchedGroups (pyLower "please update the docs") = ["documentation"] ∧
    ∃ r2 : ContextualPrefs,
      analyze_preferences_contextual store "please update the docs" limit
        = Except.ok r2 ∧ r2.note = none := by
  obtain ⟨hs_eq, hs_ne⟩ := style_some_eq store s hstyle
  have hok : analyze_preferences_contextual store context limit
      = Except.ok (contextualBody (analyze_preferences store) context s) := by
    unfold analyze_preferences_contextual
    rw [hstyle]
  have hproj := contextualBody_fallback_projections (analyze_preferences store) context s hmatch
  have hstyle_list : (if s = "" then [] else pySplitSeq ", " s) = styleTopList store := by
    rw [if_neg hs_ne, hs_eq]
    have hne2 : styleTopList store ≠ [] := by
      intro h0
      apply hs_ne
      rw [hs_eq, h0]
      rfl
    exact pyRoundTripSeq _ hne2 (fun e he => (styleTopList_entries store e he).2)
  refine ⟨⟨contextualBody (analyze_preferences store) context s, hok, hproj.1, ?_,
    hproj.2.2.1, hproj.2.2.2.1, hproj.2.2.2.2⟩, by decide, by decide, ?_⟩
  · rw [hproj.2.1, hstyle_list]
  · have hok2 : analyze_preferences_contextual store "please update the docs" limit
        = Except.ok (contextualBody (analyze_preferences store)
            "please update the docs" s) := by
      unfold analyze_preferences_contextual
      rw [hstyle]
    refine ⟨_, hok2, ?_⟩
    have hconc : matchedGroups (pyLower "please update the docs")
        = ["documentation"] := by decide
    simp [contextualBody, hconc]

/-- C7 counterexample: with an empty store the baseline style summary is
null, so contextualPreferences("hello") raises AttributeError
(`None.split(", ")` at crud.py line 239) instead of returning the fallback
payload with a note. -/
theorem c7_counterexample :
    analyze_preferences_contextual [] "hello" 50 = Except.error "AttributeError" ∧
    (analyze_preferences_contextual [] "hello" 50).isOk = false := by
  refine ⟨rfl, rfl⟩

/-- C7 witness: the amended theorem applied to a one-record store whose text
"clean" fires the style keyword "clean", so the style summary is non-null. -/
theorem c7_witness :
    (∃ r : ContextualPrefs,
      analyze_preferences_contextual
        [{ id := 1, command_text := "clean", tags := "", timestamp := 0 }] "hello" 50
        = Except.ok r ∧
      r.tasks_subset = (analyze_preferences
        [{ id := 1, command_text := "clean", tags := "", timestamp := 0 }]).common_tasks.take 3 ∧
      r.style_subset = styleTopList
        [{ id := 1, command_text := "clean", tags := "", timestamp := 0 }] ∧
      r.frameworks_subset = (analyze_preferences
        [{ id := 1, command_text := "clean", tags := "", timestamp := 0 }]).frameworks.take 3 ∧
      r.tools_subset = (analyze_preferences
        [{ id := 1, command_text := "clean", tags := "", timestamp := 0 }]).tools.take 5 ∧
      r.note.isSome = true) ∧
    matchedGroups (pyLower "hello") = [] ∧
    matchedGroups (pyLower "please update the docs") = ["documentation"] ∧
    ∃ r2 : ContextualPrefs,
      analyze_preferences_contextual
        [{ id := 1, command_text := "clean", tags := "", timestamp := 0 }]
        "please update the docs" 50 = Except.ok r2 ∧ r2.note = none :=
  c7_zero_match_fallback
    [{ id := 1, command_text := "clean", tags := "", timestamp := 0 }]
    "hello" 50 "clean" (by decide) (by decide)

/-- Dynamic Python values reaching the service facade (None, bools, ints,
strings, lists). -/
inductive PyVal where
  | pynone
  | pybool (b : Bool)
  | pyint (n : Int)
  | pystr (s : String)
  | pylist (l : List PyVal)

/-- Python identity check `v is None`. -/
def pyIsNone : PyVal → Bool
  | PyVal.pynone => true
  | _ => false

/-- Python truthiness for the modelled values. -/
def pyTruthy : PyVal → Bool
  | PyVal.pynone => false
  | PyVal.pybool b => b
  | PyVal.pyint n => n != 0
  | PyVal.pystr s => s != ""
  | PyVal.pylist l => !l.isEmpty

/-- Python `isinstance(v, str)`. -/
def pyIsStr : PyVal → Bool
  | PyVal.pystr _ => true
  | _ => false

/-- Underlying string of a string value (callers check `pyIsStr` first; the
default for non-strings is never reached on guarded paths). -/
def pyStrVal : PyVal → String
  | PyVal.pystr s => s
  | _ => ""

mutual

/-- Python `repr` for the modelled values (string quoting without escape
handling, numeric and boolean literals as Python prints them). -/
def pyReprOf : PyVal → String
  | PyVal.pynone => "None"
  | PyVal.pybool true => "True"
  | PyVal.pybool false => "False"
  | PyVal.pyint n => toString n
  | PyVal.pystr s => "\x27" ++ s ++ "\x27"
  | PyVal.pylist l => "[" ++ pyReprList l ++ "]"

/-- Comma-joined element reprs, as Python prints a list body. -/
def pyReprList : List PyVal → String
  | [] => ""
  | [x] => pyReprOf x
  | x :: y :: rest => pyReprOf x ++ ", " ++ pyReprList (y :: rest)

end

/-- Python `str(v)`: the identity on strings, `repr` otherwise (exact for
None, bools, ints and lists). -/
def pyStrOf : PyVal → String
  | PyVal.pystr s => s
  | v => pyReprOf v

/-- `safe_tags = [str(t) for t in tags if t is not None]`
(mcp_server.py line 75): drop None entries, coerce the rest to strings. -/
def safe_tags (tags : List PyVal) : List String :=
  (tags.filter fun t => !pyIsNone t).map pyStrOf

/-- In-band result of the MCP `record_command` tool:
`{"status": "ok"}` or `{"error": code}`. -/
inductive ToolResp where
  | ok
  | err (code : String)
deriving DecidableEq, Repr

/-- Models the MCP tool `record_command` (mcp_server.py lines 58-77):
validate the text, default tags to `[]` when None, reject non-list tags,
coerce the entries defensively, then insert. Every outcome is an in-band
payload. -/
def tool_record_command (now : Nat) (command_text : PyVal) (tags : PyVal)
    (store : List CmdRow) : ToolResp × List CmdRow :=
  if !pyTruthy command_text || !pyIsStr command_text then
    (ToolResp.err "command_text_required", store)
  else
    let tags2 := if pyIsNone tags then PyVal.pylist [] else tags
    match tags2 with
    | PyVal.pylist l =>
      (ToolResp.ok, create_command now (pyStrVal command_text) (safe_tags l) store)
    | _ => (ToolResp.err "tags_must_be_list", store)

/-- HTTP response of the REST record route: 200 JSON `{"status":"ok"}` or an
error JSON with a status code. -/
inductive RouteResp where
  | okJson
  | errJson (code : String) (status : Nat)
deriving DecidableEq, Repr

/-- Python `dict.get(k, default)` over a parsed JSON object. -/
def pyGet : List (String × PyVal) → String → PyVal → PyVal
  | [], _, dflt => dflt
  | (k2, v) :: rest, k, dflt => if k2 = k then v else pyGet rest k dflt

/-- Models the REST route `record_command` (mcp_server.py lines 151-170) for
requests whose body parsed to a JSON object (the `invalid_json` branch for
unparseable bodies is outside this model). Unlike the MCP tool, the route
hands the raw tag list to `crud.create_command`, whose `",".join(tags)`
raises TypeError on any non-string entry when the list is non-empty; that
unhandled exception is the `Except.error` branch (a protocol-level fault).
An empty tag list never reaches `join` (`if tags else ""`), which the
`List.all` guard reproduces since it holds vacuously there. -/
def record_command (now : Nat) (body : List (String × PyVal)) (store : List CmdRow) :
    Except String (RouteResp × List CmdRow) :=
  if !pyTruthy (pyGet body "command_text" PyVal.pynone)
      || !pyIsStr (pyGet body "command_text" PyVal.pynone) then
    Except.ok (RouteResp.errJson "command_text_required" 400, store)
  else
    match (if pyTruthy (pyGet body "tags" (PyVal.pylist []))
           then pyGet body "tags" (PyVal.pylist []) else PyVal.pylist []) with
    | PyVal.pylist l =>
      if l.all pyIsStr then
        Except.ok (RouteResp.okJson,
          create_command now (pyStrVal (pyGet body "command_text" PyVal.pynone))
            (l.map pyStrVal) store)
      else Except.error "TypeError"
    | _ => Except.ok (RouteResp.errJson "tags_must_be_list" 400, store)

/-- Output shape of `crud.get_recent_context`. -/
structure RecentContext where
  recent_commands : List String
  items : List SerializedCmd
deriving DecidableEq, Repr

/-- Models `crud.get_recent_context`: newest-first rows truncated to `limit`,
serialized inside the session; `recent_commands` projects the texts. -/
def get_recent_context (store : List CmdRow) (limit : Nat) : RecentContext :=
  let items := _serialize_commands ((listRowsSorted store).take limit)
  { recent_commands := items.map fun i => i.command_text, items := items }

/-- Models the MCP tool `memory_context` (mcp_server.py lines 49-53): the
token parameter is accepted and ignored in single-user mode. -/
def tool_context (store : List CmdRow) (token : String) (limit : Nat) : RecentContext :=
  get_recent_context store limit

/-- Models the resource `memory://user/{token}/recent` (mcp_server.py lines
38-42): fixed limit 10, token ignored; the `json.dumps` rendering is an
injective formatting step applied afterwards and is omitted. -/
def user_recent_resource (store : List CmdRow) (token : String) : RecentContext :=
  get_recent_context store 10

/-- C10: for a fixed store and limit, the token argument never influences the
memory_context tool nor the recent-context resource. -/
theorem c10_token_ignored (store : List CmdRow) (limit : Nat) (t1 t2 : String) :
    tool_context store t1 limit = tool_context store t2 limit ∧
    user_recent_resource store t1 = user_recent_resource store t2 :=
  ⟨rfl, rfl⟩

/-- C2, amended: a record call whose text is empty, missing (None) or not a
string answers in-band with error code "command_text_required" — the code's
actual error string, not the claimed "text_required" — and the store is
returned unchanged (no row created), on both the MCP tool and the REST
route. -/
theorem c2_text_required (now : Nat) (v tags : PyVal) (store : List CmdRow)
    (body : List (String × PyVal))
    (h : pyTruthy v = false ∨ pyIsStr v = false)
    (hb : pyGet body "command_text" PyVal.pynone = v) :
    tool_record_command now v tags store
      = (ToolResp.err "command_text_required", store) ∧
    record_command now body store
      = Except.ok (RouteResp.errJson "command_text_required" 400, store) := by
  have hcond : (!pyTruthy v || !pyIsStr v) = true := by
    rcases h with h | h
    · rw [h]; rfl
    · rw [h]; simp
  constructor
  · unfold tool_record_command
    rw [hcond]
    rfl
  · unfold record_command
    rw [hb]
    rw [hcond]
    rfl

/-- C2 counterexample: at text = "" the record tool answers with error code
"command_text_required", not the claimed "text_required". -/
theorem c2_counterexample :
    tool_record_command 0 (PyVal.pystr "") PyVal.pynone []
      = (ToolResp.err "command_text_required", []) ∧
    ToolResp.err "command_text_required" ≠ ToolResp.err "text_required" := by
  refine ⟨rfl, by decide⟩

/-- C2 witness: the amended theorem applied to text = "" on both surfaces. -/
theorem c2_witness :
    tool_record_command 0 (PyVal.pystr "") PyVal.pynone []
      = (ToolResp.err "command_text_required", ([] : List CmdRow)) ∧
    record_command 0 [("command_text", PyVal.pystr "")] []
      = Except.ok (RouteResp.errJson "command_text_required" 400, ([] : List CmdRow)) :=
  c2_text_required 0 (PyVal.pystr "") PyVal.pynone []
    [("command_text", PyVal.pystr "")] (Or.inl (by decide)) rfl

/-- C8, amended: the MCP tool coerces non-string tag entries via str() and
silently drops None entries, never failing on entries and always answering
in-band; the REST route, however, passes the tag list through uncoerced —
an all-string list succeeds in-band, while any non-string entry raises an
unhandled TypeError from `",".join` that escapes as a protocol-level fault
(see the counterexample). -/
theorem c8_tag_coercion (now : Nat) (s : String) (tags l : List PyVal)
    (store : List CmdRow) (h : s ≠ "") (hl : l.all pyIsStr = true) :
    tool_record_command now (PyVal.pystr s) (PyVal.pylist tags) store
      = (ToolResp.ok, create_command now s (safe_tags tags) store) ∧
    record_command now
        [("command_text", PyVal.pystr s), ("tags", PyVal.pylist l)] store
      = Except.ok (RouteResp.okJson, create_command now s (l.map pyStrVal) store) := by
  have hcond : (!pyTruthy (PyVal.pystr s) || !pyIsStr (PyVal.pystr s)) = false := by
    simp [pyTruthy, pyIsStr, h]
  refine ⟨?_, ?_⟩
  · unfold tool_record_command
    rw [hcond]
    rfl
  · cases l with
    | nil =>
      show (if (!pyTruthy (PyVal.pystr s) || !pyIsStr (PyVal.pystr s)) = true then
              Except.ok (RouteResp.errJson "command_text_required" 400, store)
            else if ([] : List PyVal).all pyIsStr = true then
              Except.ok (RouteResp.okJson,
                create_command now s (([] : List PyVal).map pyStrVal) store)
            else Except.error "TypeError")
          = Except.ok (RouteResp.okJson,
              create_command now s (([] : List PyVal).map pyStrVal) store)
      rw [hcond]
      rfl
    | cons x xs =>
      show (if (!pyTruthy (PyVal.pystr s) || !pyIsStr (PyVal.pystr s)) = true then
              Except.ok (RouteResp.errJson "command_text_required" 400, store)
            else if (x :: xs).all pyIsStr = true then
              Except.ok (RouteResp.okJson,
                create_command now s ((x :: xs).map pyStrVal) store)
            else Except.error "TypeError")
          = Except.ok (RouteResp.okJson,
              create_command now s ((x :: xs).map pyStrVal) store)
      rw [hcond, hl]
      rfl

/-- C8 counterexample: through the REST route a non-string tag entry is not
coerced — the call raises TypeError (",".join over a non-string), escaping
as a protocol-level fault rather than an in-band payload, and no row is
stored. -/
theorem c8_counterexample :
    record_command 0 [("command_text", PyVal.pystr "hi"),
                      ("tags", PyVal.pylist [PyVal.pyint 1])] []
      = Except.error "TypeError" ∧
    (record_command 0 [("command_text", PyVal.pystr "hi"),
                       ("tags", PyVal.pylist [PyVal.pyint 1])] []).isOk = false := by
  refine ⟨rfl, rfl⟩

/-- C8 witness: the amended theorem applied to concrete inputs — the tool
coerces the int and drops the None; the route succeeds on all-string tags. -/
theorem c8_witness :
    tool_record_command 7 (PyVal.pystr "hi")
        (PyVal.pylist [PyVal.pyint 1, PyVal.pynone, PyVal.pystr "a"]) []
      = (ToolResp.ok, create_command 7 "hi"
          (safe_tags [PyVal.pyint 1, PyVal.pynone, PyVal.pystr "a"]) []) ∧
    record_command 7
        [("command_text", PyVal.pystr "hi"), ("tags", PyVal.pylist [PyVal.pystr "a"])] []
      = Except.ok (RouteResp.okJson,
          create_command 7 "hi" ([PyVal.pystr "a"].map pyStrVal) []) :=
  c8_tag_coercion 7 "hi" [PyVal.pyint 1, PyVal.pynone, PyVal.pystr "a"]
    [PyVal.pystr "a"] [] (by decide) (by decide)

end MemoryMcp
